import Mathlib

/-!
Shallow embedding of the pool-company lookup pipeline
(`agent_app/tools.py`, `agent_app/agent.py`).

Pure Python string/list manipulation is translated to Lean functions over
`String` / `List Char` with ASCII character semantics.  Outbound HTTP calls
(`requests.post`/`requests.get`) are modelled as explicit function parameters
returning `Except ε α` — `.error` standing for a raised exception — and the
output file is modelled as a map from paths to written CSV contents.
-/

namespace PoolCo

/-- Python's truthiness-based `a or b` for `a : Optional[str]`:
`None` and the empty string both fall through to `b`. -/
def orS (a : Option String) (b : String) : String :=
  match a with
  | some s => if s = "" then b else s
  | none => b

/-- One entry of a place's `addressComponents` list: the `types` tags and the
optional `longText` / `shortText` fields (absent keys are `none`). -/
structure AddrComponent where
  types : List String
  longText : Option String
  shortText : Option String
deriving Repr, DecidableEq

/-- City value a matching component contributes:
`c.get("longText") or c.get("shortText") or ""` (tools.py line 86). -/
def cityOf (c : AddrComponent) : String :=
  orS c.longText (orS c.shortText "")

/-- State value a matching component contributes:
`c.get("shortText") or c.get("longText") or ""` (tools.py line 88). -/
def stateOf (c : AddrComponent) : String :=
  orS c.shortText (orS c.longText "")

/-- Does the component carry a city tag (`locality` or `postal_town`)? -/
def isCityComp (c : AddrComponent) : Bool :=
  c.types.contains "locality" || c.types.contains "postal_town"

/-- Does the component carry the state tag (`administrative_area_level_1`)? -/
def isStateComp (c : AddrComponent) : Bool :=
  c.types.contains "administrative_area_level_1"

/-- The loop of `split_city_state` (tools.py lines 83-88), with the mutable
`city`/`state` locals made explicit accumulator arguments. -/
def splitLoop : List AddrComponent → String → String → String × String
  | [], city, state => (city, state)
  | c :: rest, city, state =>
      let city' := if isCityComp c then cityOf c else city
      let state' := if isStateComp c then stateOf c else state
      splitLoop rest city' state'

/-- `split_city_state` (tools.py lines 81-89): scan the component list,
updating the city on every city-tagged component and the state on every
state-tagged component, starting from empty strings. -/
def split_city_state (components : List AddrComponent) : String × String :=
  splitLoop components "" ""

/-! ### Filename slugging (`_safe_filename`, agent.py lines 12-19) -/

/-- Membership in the character class `[a-z0-9]` of the pattern
`re.sub(r"[^a-z0-9]+", "_", name)`. -/
def isSlugChar (c : Char) : Bool :=
  ('a' ≤ c && c ≤ 'z') || ('0' ≤ c && c ≤ '9')

/-- `str.lower()` on one character (ASCII semantics). -/
def lowerChar (c : Char) : Char := c.toLower

/-- Strip characters satisfying `p` from both ends of the list
(Python `str.strip()` / `str.strip("_")`). -/
def stripBoth (p : Char → Bool) (l : List Char) : List Char :=
  ((l.dropWhile p).reverse.dropWhile p).reverse

/-- Worker for `re.sub(r"[^a-z0-9]+", "_", s)`: the flag records whether the
scan is inside a run of non-matching characters whose single `'_'` has
already been emitted. -/
def subRunsAux : Bool → List Char → List Char
  | _, [] => []
  | inRun, c :: cs =>
      if isSlugChar c then c :: subRunsAux false cs
      else if inRun then subRunsAux true cs
      else '_' :: subRunsAux true cs

/-- `re.sub(r"[^a-z0-9]+", "_", s)`: each maximal run of characters outside
`[a-z0-9]` becomes a single underscore. -/
def subRuns (l : List Char) : List Char := subRunsAux false l

/-- `_safe_filename` on the character list: strip whitespace, lowercase,
replace runs of non-`[a-z0-9]` characters by `'_'`, strip underscores. -/
def safeFilenameL (l : List Char) : List Char :=
  stripBoth (fun c => c == '_')
    (subRuns ((stripBoth Char.isWhitespace l).map lowerChar))

/-- `_safe_filename` (agent.py lines 12-19). -/
def safe_filename (s : String) : String := String.mk (safeFilenameL s.data)

/-! ### Email regex (`EMAIL_RE`, tools.py line 91) and scraper -/

/-- Character class `[A-Z0-9._%+-]` under `re.I`. -/
def isLocalCh (c : Char) : Bool :=
  c.isAlphanum || c == '.' || c == '_' || c == '%' || c == '+' || c == '-'

/-- Character class `[A-Z0-9.-]` under `re.I`. -/
def isDomCh (c : Char) : Bool :=
  c.isAlphanum || c == '.' || c == '-'

/-- Character class `[A-Z]` under `re.I`. -/
def isAlphaCh (c : Char) : Bool := c.isAlpha

/-- Backtracking of the greedy `[A-Z0-9.-]+` against `\.[A-Z]{2,}`: try a
domain run of `i` characters for `i = k, k-1, ..., 1`, requiring a literal
`'.'` at index `i` followed by a maximal alphabetic run of length ≥ 2; the
first (longest-run) success is the match, exactly as Python's backtracking
tries the longest run first. -/
def domSearch (rest : List Char) : Nat → Option (List Char)
  | 0 => none
  | k + 1 =>
      if rest[k + 1]? = some '.' then
        let a := (rest.drop (k + 2)).takeWhile isAlphaCh
        if 2 ≤ a.length then some (rest.take (k + 1) ++ '.' :: a)
        else domSearch rest k
      else domSearch rest k

/-- Match `[A-Z0-9.-]+\.[A-Z]{2,}` at the start of `rest`, starting the
backtracking from the maximal run of domain characters. -/
def domMatch (rest : List Char) : Option (List Char) :=
  domSearch rest (rest.takeWhile isDomCh).length

/-- Attempt `EMAIL_RE` at the start of `l`: a maximal nonempty run of
local-part characters (the class excludes `'@'`, so no backtracking can
help), a literal `'@'`, then the domain part. -/
def matchHere (l : List Char) : Option (List Char) :=
  let p1 := l.takeWhile isLocalCh
  if p1.length = 0 then none
  else
    match l.drop p1.length with
    | '@' :: rest => (domMatch rest).map (fun dm => p1 ++ '@' :: dm)
    | _ => none

/-- `EMAIL_RE.search(html)`: leftmost start position wins; returns
`m.group(0)`. -/
def searchEmail : List Char → Option (List Char)
  | [] => none
  | c :: cs =>
      match matchHere (c :: cs) with
      | some m => some m
      | none => searchEmail cs

/-- `urlsplit` first deletes tab, CR and LF wherever they occur in the
URL. -/
def removeUnsafe (l : List Char) : List Char :=
  l.filter fun c => !(c == '\t' || c == '\r' || c == '\n')

/-- Scan of `urlsplit`'s scheme loop after the first character: walk
through characters of `[a-zA-Z0-9+.-]`; on reaching `':'` return the
remainder after it, otherwise no scheme. -/
def schemeRest : List Char → Option (List Char)
  | [] => none
  | c :: cs =>
      if c == ':' then some cs
      else if c.isAlphanum || c == '+' || c == '-' || c == '.' then
        schemeRest cs
      else none

/-- `urlsplit`'s scheme split: when the URL starts with an ASCII letter and
a `':'` is reached through scheme characters, the scheme is nonempty and
the rest of the URL follows the `':'`; otherwise there is no scheme. -/
def splitScheme (l : List Char) : Option (List Char) :=
  match l with
  | [] => none
  | c :: cs => if c.isAlpha then schemeRest cs else none

/-- `urlparse(url).scheme` is nonempty (computed, like `urlsplit`, on the
URL with unsafe bytes removed). -/
def hasScheme (s : String) : Bool :=
  (splitScheme (removeUnsafe s.data)).isSome

/-- `_splitnetloc`: the netloc runs from just after `"//"` to the first
`'/'`, `'?'` or `'#'`. -/
def netlocOf (l : List Char) : List Char :=
  l.takeWhile fun c => !(c == '/' || c == '?' || c == '#')

/-- The `ValueError("Invalid IPv6 URL")` check of `urlsplit`: after
removing unsafe bytes and stripping a scheme, a URL of the form
`//netloc...` raises when the netloc contains `'['` without `']'` or `']'`
without `'['`.  (Newer interpreter versions additionally validate the
contents of a balanced bracket pair — `_check_bracketed_host` — which is
not modelled; the non-raising theorems below only ever instantiate
bracket-free URLs.) -/
def urlparseRaises (l : List Char) : Bool :=
  let clean := removeUnsafe l
  let rest := (splitScheme clean).getD clean
  match rest with
  | '/' :: '/' :: r =>
      let netloc := netlocOf r
      (netloc.contains '[' && !netloc.contains ']') ||
      (netloc.contains ']' && !netloc.contains '[')
  | _ => false

/-- The exception `urlparse` raises on a bracket-mismatched netloc. -/
structure ValueError where
  msg : String
deriving Repr, DecidableEq

/-- The part of `fetch_email_from_site` INSIDE the `try` (tools.py lines
100-105), plus the scheme normalisation: fetch the page (the page fetch
`requests.get(url, timeout=15).text` is a parameter returning `Except ε`),
return the first `EMAIL_RE` match, and swallow every fetch exception into
`none`.  This part is total. -/
def scrapeEmail (fetchPage : String → Except ε String) (url : String) :
    Option String :=
  let url2 := if hasScheme url then url else "https://" ++ url
  match fetchPage url2 with
  | .ok html => (searchEmail html.data).map String.mk
  | .error _ => none

/-- `fetch_email_from_site` (tools.py lines 93-105).  `urlparse(url)` runs
at line 97, OUTSIDE the `try` that starts at line 100, so the `ValueError`
it raises for a bracket-mismatched netloc propagates to the caller; every
exception of the page fetch itself is swallowed into `none`. -/
def fetch_email_from_site (fetchPage : String → Except ε String)
    (url : String) : Except ValueError (Option String) :=
  if url = "" then .ok none
  else if urlparseRaises url.data then .error ⟨"Invalid IPv6 URL"⟩
  else .ok (scrapeEmail fetchPage url)

/-! ### Place details, Company records and the collector (tools.py) -/

/-- The detail bag returned by the place-details endpoint, restricted to the
fields `collect_companies` reads; `displayName` stands for
`displayName.text`.  Absent fields are `none`. -/
structure PlaceDetails where
  displayName : Option String
  formattedAddress : Option String
  addressComponents : Option (List AddrComponent)
  nationalPhoneNumber : Option String
  internationalPhoneNumber : Option String
  websiteUri : Option String
  googleMapsUri : Option String
deriving Repr

/-- The pydantic `Company` model (tools.py lines 19-26): the last three
fields are `Optional[str]`, so they are `Option String` here; the claim that
they are nevertheless always strings is proved, not assumed. -/
structure Company where
  company : String
  address : String
  city : String
  state : String
  phone : Option String
  email : Option String
  website : Option String
deriving Repr, DecidableEq

/-- The outbound-HTTP environment: the text-search candidate finder, the
place-details fetcher, and the page fetch used by the email scraper.
`.error` models a raised exception (`raise_for_status` or a network
failure). -/
structure Env (ε : Type) where
  searchIds : String → Except ε (List String)
  details : String → Except ε PlaceDetails
  fetchPage : String → Except ε String

/-- Body of the `collect_companies` loop (tools.py lines 121-137): assemble
one `Company` from a detail bag, using Python `or`-chains for fallbacks.
The email line uses the total scrape part `scrapeEmail`; the `ValueError`
that `urlparse` can raise for a bracket-mismatched website URL (see
`fetch_email_from_site`) would in the source propagate out of the
collection like any other exception — that raising path is settled by C7's
theorems and is not threaded through the collector model. -/
def assemble (fetchPage : String → Except ε String) (d : PlaceDetails) :
    Company :=
  let name := orS d.displayName ""
  let addr := orS d.formattedAddress ""
  let comps := d.addressComponents.getD []
  let phone := orS d.nationalPhoneNumber (orS d.internationalPhoneNumber "")
  let website := orS d.websiteUri (orS d.googleMapsUri "")
  let cs := split_city_state comps
  let email := orS (scrapeEmail fetchPage website) ""
  { company := name, address := addr, city := cs.1, state := cs.2,
    phone := some phone, email := some email, website := some website }

/-- The per-candidate loop of `collect_companies`: details fetch, record
assembly, in candidate order; the first raised exception propagates and all
previously assembled records are discarded.  (The fixed `time.sleep(0.2)`
between iterations has no effect on the value and is not modelled.) -/
def collectLoop (env : Env ε) : List String → Except ε (List Company)
  | [] => .ok []
  | pid :: rest =>
      match env.details pid with
      | .error e => .error e
      | .ok d =>
          match collectLoop env rest with
          | .error e => .error e
          | .ok out => .ok (assemble env.fetchPage d :: out)

/-- `collect_companies` (tools.py lines 116-139). -/
def collect_companies (env : Env ε) (cityState : String) :
    Except ε (List Company) :=
  match env.searchIds cityState with
  | .error e => .error e
  | .ok ids => collectLoop env ids

/-! ### CSV export and the tool surface (tools.py `save_csv`, agent.py) -/

/-- The fixed column order of `save_csv` (tools.py line 143). -/
def csvCols : List String :=
  ["company", "address", "city", "state", "phone", "email", "website"]

/-- `r.dict()` read off in the writer's column order; the `csv` module
writes `None` as the empty string. -/
def rowOf (r : Company) : List String :=
  [r.company, r.address, r.city, r.state,
   r.phone.getD "", r.email.getD "", r.website.getD ""]

/-- The file system, as a map from paths to CSV content already written;
content is the list of CSV records, one list of fields per record (the
header record first). -/
def FS : Type := String → Option (List (List String))

/-- `save_csv` (tools.py lines 142-149): open for write (truncating any
existing file), emit the header record then one record per row, return the
path written. -/
def save_csv (rows : List Company) (path : String) (fs : FS) : FS × String :=
  (fun p => if p = path then some (csvCols :: rows.map rowOf) else fs p, path)

/-- The status envelope returned by the three tools; fields a given tool
does not put in its dict are `none`. -/
structure Envelope where
  status : String
  count : Nat
  results : Option (List Company)
  path : Option String
  cityState : Option String
deriving Repr, DecidableEq

/-- `data/<slug>_pool_companies.csv` — the deterministic output path
(agent.py lines 38-39 and 55-56; `DATA_DIR` is the package's `data/`
directory). -/
def outPath (cityState : String) : String :=
  "data/" ++ safe_filename cityState ++ "_pool_companies.csv"

/-- `find_pool_companies` (agent.py lines 23-32). -/
def find_pool_companies (env : Env ε) (cityState : String) :
    Except ε Envelope :=
  match collect_companies env cityState with
  | .error e => .error e
  | .ok rows =>
      .ok { status := "success", count := rows.length, results := some rows,
            path := none, cityState := none }

/-- `write_csv` (agent.py lines 34-48): the `_RowShim` adapter is the
identity on the field mapping, so rows are modelled as `Company` records
directly. -/
def write_csv (rows : List Company) (cityState : String) (fs : FS) :
    FS × Envelope :=
  let path := outPath cityState
  let fs2 := (save_csv rows path fs).1
  (fs2, { status := "success", count := rows.length, results := none,
          path := some path, cityState := none })

/-- `find_and_save` (agent.py lines 50-63): collect, then write, then build
the envelope; when the collection raises, the write is never reached and the
file system is unchanged. -/
def find_and_save (env : Env ε) (cityState : String) (fs : FS) :
    FS × Except ε Envelope :=
  match collect_companies env cityState with
  | .error e => (fs, .error e)
  | .ok rows =>
      let path := outPath cityState
      let fs2 := (save_csv rows path fs).1
      (fs2, .ok { status := "success", count := rows.length, results := none,
                  path := some path, cityState := some cityState })

/-! ## Spec-side characterisation used by the amended C1 -/

/-- City value of the LAST city-tagged component, or `""` when none matches
(the characterisation the amended C1 compares `split_city_state` against). -/
def lastCity (comps : List AddrComponent) : String :=
  (((comps.filter fun c => isCityComp c).getLast?).map cityOf).getD ""

/-- State value of the LAST state-tagged component, or `""` when none
matches. -/
def lastState (comps : List AddrComponent) : String :=
  (((comps.filter fun c => isStateComp c).getLast?).map stateOf).getD ""

/-! ## Helper lemmas -/

theorem getLast?_map_getD_cons {α β : Type} (f : α → β) (c : α) (l : List α)
    (x : β) :
    (((c :: l).getLast?).map f).getD x = ((l.getLast?).map f).getD (f c) := by
  cases l with
  | nil => rfl
  | cons d ds =>
      rw [List.getLast?_cons_cons]
      rw [List.getLast?_eq_getLast (d :: ds) (by simp)]
      rfl

theorem splitLoop_fst (comps : List AddrComponent) :
    ∀ city state, (splitLoop comps city state).1 =
      (((comps.filter fun c => isCityComp c).getLast?).map cityOf).getD city := by
  induction comps with
  | nil => intro city state; rfl
  | cons c rest ih =>
      intro city state
      by_cases h : isCityComp c
      · simp only [splitLoop, h, if_pos, List.filter_cons_of_pos h]
        rw [ih, getLast?_map_getD_cons]
      · simp only [splitLoop, List.filter_cons_of_neg h]
        rw [ih]
        simp [h]

theorem splitLoop_snd (comps : List AddrComponent) :
    ∀ city state, (splitLoop comps city state).2 =
      (((comps.filter fun c => isStateComp c).getLast?).map stateOf).getD state := by
  induction comps with
  | nil => intro city state; rfl
  | cons c rest ih =>
      intro city state
      by_cases h : isStateComp c
      · simp only [splitLoop, h, if_pos, List.filter_cons_of_pos h]
        rw [ih, getLast?_map_getD_cons]
      · simp only [splitLoop, List.filter_cons_of_neg h]
        rw [ih]
        simp [h]

theorem collectLoop_ok {ε : Type} (env : Env ε) (f : String → PlaceDetails) :
    ∀ ids : List String, (∀ pid ∈ ids, env.details pid = .ok (f pid)) →
      collectLoop env ids =
        .ok (ids.map fun pid => assemble env.fetchPage (f pid)) := by
  intro ids
  induction ids with
  | nil => intro _; rfl
  | cons pid rest ih =>
      intro h
      have hp := h pid (List.mem_cons_self _ _)
      have hr := ih fun q hq => h q (List.mem_cons_of_mem _ hq)
      simp [collectLoop, hp, hr]

theorem collectLoop_mem {ε : Type} (env : Env ε) :
    ∀ (ids : List String) (out : List Company),
      collectLoop env ids = .ok out →
      ∀ r ∈ out, ∃ d, r = assemble env.fetchPage d := by
  intro ids
  induction ids with
  | nil =>
      intro out h r hr
      simp only [collectLoop, Except.ok.injEq] at h
      subst h
      cases hr
  | cons pid rest ih =>
      intro out h r hr
      cases hd : env.details pid with
      | error e => simp [collectLoop, hd] at h
      | ok d =>
          cases hrec : collectLoop env rest with
          | error e => simp [collectLoop, hd, hrec] at h
          | ok out' =>
              simp only [collectLoop, hd, hrec, Except.ok.injEq] at h
              subst h
              cases hr with
              | head => exact ⟨d, rfl⟩
              | tail _ hr2 => exact ih out' hrec r hr2

/-! ## Slug canonicity (towards C4) -/

/-- No two adjacent underscores. -/
def NoAdjU (a b : Char) : Prop := ¬(a = '_' ∧ b = '_')

theorem isSlugChar_ne_und {c : Char} (h : isSlugChar c = true) : c ≠ '_' :=
  fun hc => by rw [hc] at h; exact absurd h (by decide)

theorem toNat_le_of_le {a c : Char} (h : a ≤ c) : a.toNat ≤ c.toNat := by
  rw [Char.le_def, UInt32.le_def, BitVec.le_def] at h
  exact h

theorem lowerChar_eq_self {c : Char} (h : isSlugChar c = true ∨ c = '_') :
    lowerChar c = c := by
  rcases h with h | rfl
  · simp only [isSlugChar, Bool.or_eq_true, Bool.and_eq_true,
      decide_eq_true_eq] at h
    simp only [lowerChar, Char.toLower]
    rw [if_neg]
    rintro ⟨h65, h90⟩
    rcases h with ⟨hl, _⟩ | ⟨_, hr⟩
    · have h1 := toNat_le_of_le hl
      have e : Char.toNat 'a' = 97 := rfl
      omega
    · have h1 := toNat_le_of_le hr
      have e : Char.toNat '9' = 57 := rfl
      omega
  · decide

theorem slug_not_ws {c : Char} (h : isSlugChar c = true ∨ c = '_') :
    c.isWhitespace = false := by
  rcases h with h | rfl
  · simp only [isSlugChar, Bool.or_eq_true, Bool.and_eq_true,
      decide_eq_true_eq] at h
    by_contra hw
    rw [Bool.not_eq_false] at hw
    simp only [Char.isWhitespace, Bool.or_eq_true, decide_eq_true_eq] at hw
    rcases hw with ((rfl | rfl) | rfl) | rfl <;>
      rcases h with ⟨hl, _⟩ | ⟨hl, _⟩ <;> exact absurd hl (by decide)
  · decide

theorem subRunsAux_mem : ∀ (l : List Char) (b : Bool) (c : Char),
    c ∈ subRunsAux b l → isSlugChar c = true ∨ c = '_' := by
  intro l
  induction l with
  | nil => intro b c hc; simp [subRunsAux] at hc
  | cons a as ih =>
      intro b c hc
      by_cases hg : isSlugChar a
      · rw [show subRunsAux b (a :: as) = a :: subRunsAux false as from by
          simp [subRunsAux, hg]] at hc
        rcases List.mem_cons.mp hc with h | h
        · exact Or.inl (h ▸ hg)
        · exact ih false c h
      · cases b with
        | true =>
            rw [show subRunsAux true (a :: as) = subRunsAux true as from by
              simp [subRunsAux, hg]] at hc
            exact ih true c hc
        | false =>
            rw [show subRunsAux false (a :: as) = '_' :: subRunsAux true as
                from by simp [subRunsAux, hg]] at hc
            rcases List.mem_cons.mp hc with h | h
            · exact Or.inr h
            · exact ih true c h

theorem subRunsAux_true_head : ∀ (l : List Char) (c : Char) (cs : List Char),
    subRunsAux true l = c :: cs → isSlugChar c = true := by
  intro l
  induction l with
  | nil => intro c cs h; exact absurd h (by simp [subRunsAux])
  | cons a as ih =>
      intro c cs h
      by_cases hg : isSlugChar a
      · rw [show subRunsAux true (a :: as) = a :: subRunsAux false as from by
          simp [subRunsAux, hg]] at h
        injection h with h1 _
        exact h1 ▸ hg
      · rw [show subRunsAux true (a :: as) = subRunsAux true as from by
          simp [subRunsAux, hg]] at h
        exact ih c cs h

theorem subRunsAux_chain' : ∀ (l : List Char) (b : Bool),
    (subRunsAux b l).Chain' NoAdjU := by
  intro l
  induction l with
  | nil => intro b; rw [show subRunsAux b [] = [] from rfl]; exact trivial
  | cons a as ih =>
      intro b
      by_cases hg : isSlugChar a
      · rw [show subRunsAux b (a :: as) = a :: subRunsAux false as from by
          simp [subRunsAux, hg]]
        refine (ih false).cons' ?_
        intro y _ hand
        exact isSlugChar_ne_und hg hand.1
      · cases b with
        | true =>
            rw [show subRunsAux true (a :: as) = subRunsAux true as from by
              simp [subRunsAux, hg]]
            exact ih true
        | false =>
            rw [show subRunsAux false (a :: as) = '_' :: subRunsAux true as
                from by simp [subRunsAux, hg]]
            refine (ih true).cons' ?_
            intro y hy hand
            cases hT : subRunsAux true as with
            | nil => rw [hT] at hy; exact absurd hy (by simp)
            | cons c0 cs0 =>
                rw [hT] at hy
                have hy0 : c0 = y := by simpa using hy
                have hgc := subRunsAux_true_head as c0 cs0 hT
                exact isSlugChar_ne_und hgc (hy0.trans hand.2)

theorem subRunsAux_fix : ∀ l : List Char,
    (∀ c ∈ l, isSlugChar c = true ∨ c = '_') →
    l.Chain' NoAdjU →
    subRunsAux false l = l ∧
    ∀ a as, l = a :: as → isSlugChar a = true → subRunsAux true l = l := by
  intro l
  induction l with
  | nil => intro _ _; exact ⟨rfl, fun a as h => absurd h (by simp)⟩
  | cons a as ih =>
      intro hmem hch
      obtain ⟨ih1, ih2⟩ :=
        ih (fun c hc => hmem c (List.mem_cons_of_mem _ hc)) hch.tail
      by_cases hg : isSlugChar a
      · have e1 : subRunsAux false (a :: as) = a :: subRunsAux false as := by
          simp [subRunsAux, hg]
        have e2 : subRunsAux true (a :: as) = a :: subRunsAux false as := by
          simp [subRunsAux, hg]
        refine ⟨by rw [e1, ih1], ?_⟩
        intro a' as' _ _
        rw [e2, ih1]
      · have ha : a = '_' := by
          rcases hmem a (List.mem_cons_self _ _) with h | h
          · exact absurd h hg
          · exact h
        have hTas : subRunsAux true as = as := by
          cases as with
          | nil => rfl
          | cons d ds =>
              have hd : isSlugChar d = true := by
                rcases hmem d (List.mem_cons_of_mem _
                    (List.mem_cons_self _ _)) with h | h
                · exact h
                · exact absurd ⟨ha, h⟩ hch.rel_head
              exact ih2 d ds rfl hd
        refine ⟨?_, ?_⟩
        · have e1 : subRunsAux false (a :: as) = '_' :: subRunsAux true as :=
            by simp [subRunsAux, hg]
          rw [e1, hTas, ha]
        · intro a' as' heq hg'
          injection heq with h1 _
          exact absurd (h1 ▸ hg') hg

theorem dropWhile_eq_self_of_head? (p : Char → Bool) (l : List Char)
    (h : ∀ c, l.head? = some c → p c = false) : l.dropWhile p = l := by
  cases l with
  | nil => rfl
  | cons a as => simp [List.dropWhile_cons, h a rfl]

theorem stripBoth_eq_self (p : Char → Bool) (l : List Char)
    (h1 : ∀ c, l.head? = some c → p c = false)
    (h2 : ∀ c, l.getLast? = some c → p c = false) :
    stripBoth p l = l := by
  unfold stripBoth
  rw [dropWhile_eq_self_of_head? p l h1]
  rw [dropWhile_eq_self_of_head? p l.reverse
    (fun c hc => h2 c (by rwa [List.head?_reverse] at hc))]
  exact List.reverse_reverse l

theorem stripBoth_subset (p : Char → Bool) (l : List Char) {c : Char}
    (hc : c ∈ stripBoth p l) : c ∈ l := by
  unfold stripBoth at hc
  rw [List.mem_reverse] at hc
  have h2 := (List.dropWhile_suffix p).subset hc
  rw [List.mem_reverse] at h2
  exact (List.dropWhile_suffix p).subset h2

theorem stripBoth_chain' (p : Char → Bool) (l : List Char)
    (h : l.Chain' NoAdjU) : (stripBoth p l).Chain' NoAdjU := by
  have hsymm : ∀ x y : Char, NoAdjU x y → NoAdjU y x :=
    fun x y hxy hand => hxy ⟨hand.2, hand.1⟩
  unfold stripBoth
  have h1 : (l.dropWhile p).Chain' NoAdjU :=
    h.suffix (List.dropWhile_suffix p)
  have h2 : ((l.dropWhile p).reverse).Chain' NoAdjU :=
    List.chain'_reverse.mpr (h1.imp hsymm)
  have h3 := h2.suffix (List.dropWhile_suffix p)
  exact List.chain'_reverse.mpr (h3.imp hsymm)

theorem head?_dropWhile_false (p : Char → Bool) (l : List Char) (c : Char)
    (h : (l.dropWhile p).head? = some c) : p c = false := by
  induction l with
  | nil => cases h
  | cons a as ih =>
      by_cases hp : p a
      · rw [List.dropWhile_cons, if_pos hp] at h
        exact ih h
      · have hpa : p a = false := by
          rw [← Bool.not_eq_true]; exact hp
        rw [List.dropWhile_cons, if_neg hp] at h
        have : a = c := by simpa using h
        exact this ▸ hpa

theorem getLast?_of_suffix {α : Type} {l₁ l₂ : List α} (h : l₁ <:+ l₂)
    (hne : l₁ ≠ []) : l₁.getLast? = l₂.getLast? := by
  obtain ⟨t, rfl⟩ := h
  exact (List.getLast?_append_of_ne_nil t hne).symm

theorem stripBoth_head?_false (p : Char → Bool) (l : List Char) (c : Char)
    (hc : (stripBoth p l).head? = some c) : p c = false := by
  unfold stripBoth at hc
  rw [List.head?_reverse] at hc
  have hne : ((l.dropWhile p).reverse.dropWhile p) ≠ [] := by
    intro h0
    rw [h0] at hc
    cases hc
  rw [getLast?_of_suffix (List.dropWhile_suffix p) hne] at hc
  rw [List.getLast?_reverse] at hc
  exact head?_dropWhile_false p l c hc

theorem stripBoth_getLast?_false (p : Char → Bool) (l : List Char) (c : Char)
    (hc : (stripBoth p l).getLast? = some c) : p c = false := by
  unfold stripBoth at hc
  rw [List.getLast?_reverse] at hc
  exact head?_dropWhile_false p _ c hc

theorem map_eq_self_of {l : List Char} {f : Char → Char}
    (h : ∀ c ∈ l, f c = c) : l.map f = l := by
  induction l with
  | nil => rfl
  | cons a as ih =>
      rw [List.map_cons, h a (List.mem_cons_self _ _),
        ih fun c hc => h c (List.mem_cons_of_mem _ hc)]

theorem safeFilenameL_mem (l : List Char) :
    ∀ c ∈ safeFilenameL l, isSlugChar c = true ∨ c = '_' := by
  intro c hc
  exact subRunsAux_mem _ false c (stripBoth_subset _ _ hc)

theorem safeFilenameL_chain' (l : List Char) :
    (safeFilenameL l).Chain' NoAdjU :=
  stripBoth_chain' _ _ (subRunsAux_chain' _ false)

theorem safeFilenameL_head (l : List Char) (c : Char)
    (h : (safeFilenameL l).head? = some c) : c ≠ '_' := by
  have hf := stripBoth_head?_false (fun c => c == '_') _ c h
  intro hc
  rw [hc] at hf
  exact absurd hf (by decide)

theorem safeFilenameL_last (l : List Char) (c : Char)
    (h : (safeFilenameL l).getLast? = some c) : c ≠ '_' := by
  have hf := stripBoth_getLast?_false (fun c => c == '_') _ c h
  intro hc
  rw [hc] at hf
  exact absurd hf (by decide)

theorem safeFilenameL_fix (l : List Char)
    (hmem : ∀ c ∈ l, isSlugChar c = true ∨ c = '_')
    (hch : l.Chain' NoAdjU)
    (hhead : ∀ c, l.head? = some c → c ≠ '_')
    (hlast : ∀ c, l.getLast? = some c → c ≠ '_') :
    safeFilenameL l = l := by
  unfold safeFilenameL
  rw [stripBoth_eq_self Char.isWhitespace l
    (fun c hc => slug_not_ws (hmem c (List.mem_of_mem_head? hc)))
    (fun c hc => slug_not_ws (hmem c (List.mem_of_mem_getLast? hc)))]
  rw [map_eq_self_of fun c hc => lowerChar_eq_self (hmem c hc)]
  rw [show subRuns l = l from (subRunsAux_fix l hmem hch).1]
  exact stripBoth_eq_self _ l
    (fun c hc => beq_eq_false_iff_ne.mpr (hhead c hc))
    (fun c hc => beq_eq_false_iff_ne.mpr (hlast c hc))

theorem safeFilenameL_idem (l : List Char) :
    safeFilenameL (safeFilenameL l) = safeFilenameL l :=
  safeFilenameL_fix (safeFilenameL l) (safeFilenameL_mem l)
    (safeFilenameL_chain' l) (safeFilenameL_head l) (safeFilenameL_last l)

/-! ## Claims -/

/-- C9: `split_city_state` on
`[{types:["administrative_area_level_1"], shortText:"MA"},
{types:["locality"], longText:"Boston"}]` returns `("Boston", "MA")`, on the
empty list returns `("", "")`, and the state is taken from the abbreviated
(short) form in preference to the long form. -/
theorem C9_split_city_state_examples :
    split_city_state [⟨["administrative_area_level_1"], none, some "MA"⟩,
        ⟨["locality"], some "Boston", none⟩] = ("Boston", "MA") ∧
    split_city_state ([] : List AddrComponent) = ("", "") ∧
    split_city_state [⟨["administrative_area_level_1"], some "Massachusetts",
        some "MA"⟩] = ("", "MA") := by
  refine ⟨?_, ?_, ?_⟩ <;> rfl

/-- C1 counterexample: with two components both tagged `locality`, carrying
"A" then "B", `split_city_state` returns the LAST one's value "B" for the
city, not the value "A" of the FIRST matching component as the claim
states. -/
theorem C1_counterexample :
    split_city_state [⟨["locality"], some "A", none⟩,
        ⟨["locality"], some "B", none⟩] = ("B", "") ∧
    ¬ split_city_state [⟨["locality"], some "A", none⟩,
        ⟨["locality"], some "B", none⟩] = ("A", "") := by
  refine ⟨rfl, ?_⟩
  decide

/-- C1 (amended): for every component list, `split_city_state` returns, per
category, the value of the LAST matching component in iteration order (each
match overwrites the local variable), and the empty string when no component
matches that category. -/
theorem C1_last_match_wins (comps : List AddrComponent) :
    (split_city_state comps).1 = lastCity comps ∧
    (split_city_state comps).2 = lastState comps := by
  exact ⟨splitLoop_fst comps "" "", splitLoop_snd comps "" ""⟩

/-- C6: `save_csv` writes exactly one header record followed by one record
per row (`N + 1` records in all) in the fixed column order
`company,address,city,state,phone,email,website`, overwrites whatever was at
the destination path (the content written is independent of the previous
file-system state), leaves every other path untouched, and returns the path
written. -/
theorem C6_save_csv (rows : List Company) (path : String) (fs : FS) :
    (save_csv rows path fs).2 = path ∧
    (save_csv rows path fs).1 path = some (csvCols :: rows.map rowOf) ∧
    (csvCols :: rows.map rowOf).length = rows.length + 1 ∧
    csvCols = ["company", "address", "city", "state", "phone", "email",
      "website"] ∧
    (∀ p, p ≠ path → (save_csv rows path fs).1 p = fs p) := by
  refine ⟨rfl, ?_, by simp [csvCols], rfl, ?_⟩
  · simp [save_csv]
  · intro p hp
    simp [save_csv, hp]

/-- C6 witness at a concrete record list, path and a nonempty prior file
system. -/
theorem C6_save_csv_witness :
    (save_csv [⟨"Acme Pools", "1 Main St", "Boston", "MA", some "555",
        some "a@b.co", some "acme.com"⟩] "data/x.csv"
        (fun _ => some [])).2 = "data/x.csv" ∧
    (save_csv [⟨"Acme Pools", "1 Main St", "Boston", "MA", some "555",
        some "a@b.co", some "acme.com"⟩] "data/x.csv"
        (fun _ => some [])).1 "data/x.csv" =
      some [csvCols, ["Acme Pools", "1 Main St", "Boston", "MA", "555",
        "a@b.co", "acme.com"]] ∧
    (save_csv [⟨"Acme Pools", "1 Main St", "Boston", "MA", some "555",
        some "a@b.co", some "acme.com"⟩] "data/x.csv"
        (fun _ => some [])).1 "other.csv" = some [] := by
  have h := C6_save_csv [⟨"Acme Pools", "1 Main St", "Boston", "MA",
    some "555", some "a@b.co", some "acme.com"⟩] "data/x.csv" (fun _ => some [])
  exact ⟨h.1, h.2.1, h.2.2.2.2 "other.csv" (by decide)⟩

/-- C10: the assembled website field is the Python `or`-chain
`websiteUri or googleMapsUri or ""`: the upstream `websiteUri` when present
(truthy), else the `googleMapsUri` when present (truthy), else the empty
string; and the email scrape is attempted against exactly this fallback
value, so a company with no real website is scraped at its Google Maps
URL. -/
theorem C10_website_fallback {ε : Type} (fp : String → Except ε String)
    (d : PlaceDetails) :
    (assemble fp d).website = some (orS d.websiteUri (orS d.googleMapsUri "")) ∧
    (∀ w, d.websiteUri = some w → w ≠ "" → (assemble fp d).website = some w) ∧
    (∀ m, (d.websiteUri = none ∨ d.websiteUri = some "") →
        d.googleMapsUri = some m → m ≠ "" → (assemble fp d).website = some m) ∧
    ((d.websiteUri = none ∨ d.websiteUri = some "") →
        (d.googleMapsUri = none ∨ d.googleMapsUri = some "") →
        (assemble fp d).website = some "") ∧
    (assemble fp d).email = some (orS
      (scrapeEmail fp (orS d.websiteUri (orS d.googleMapsUri ""))) "") := by
  refine ⟨rfl, ?_, ?_, ?_, rfl⟩
  · intro w hw hne
    simp [assemble, orS, hw, hne]
  · intro m hw hm hne
    rcases hw with h | h <;> simp [assemble, orS, h, hm, hne]
  · intro hw hm
    rcases hw with h | h <;> rcases hm with h2 | h2 <;>
      simp [assemble, orS, h, h2]

/-- C10 witness: details with no `websiteUri` and a maps URI; the website
field is the maps URI and the scrape (here failing) leaves an empty
email. -/
theorem C10_website_fallback_witness :
    (assemble (fun _ => Except.error ())
        ⟨none, none, none, none, none, none,
          some "https://maps.google.com/?cid=1"⟩).website =
      some "https://maps.google.com/?cid=1" ∧
    (assemble (fun _ => Except.error ())
        ⟨none, none, none, none, none, none,
          some "https://maps.google.com/?cid=1"⟩).email = some "" := by
  have h := C10_website_fallback (fun _ => Except.error ())
    ⟨none, none, none, none, none, none, some "https://maps.google.com/?cid=1"⟩
  refine ⟨?_, ?_⟩
  · exact h.2.2.1 "https://maps.google.com/?cid=1" (Or.inl rfl) rfl
      (by decide)
  · rw [h.2.2.2.2]
    rfl

/-- C2: when the search step yields a candidate-ID list and every details
fetch succeeds, `collect_companies` returns one `Company` per candidate ID,
in candidate order: the output is exactly the candidate list mapped through
record assembly, its length equals the number of candidate IDs, and position
`i` of the output is assembled from the details of candidate ID `i`. -/
theorem C2_collect_order {ε : Type} (env : Env ε) (cs : String)
    (ids : List String) (f : String → PlaceDetails)
    (hs : env.searchIds cs = .ok ids)
    (hd : ∀ pid ∈ ids, env.details pid = .ok (f pid)) :
    collect_companies env cs =
      .ok (ids.map fun pid => assemble env.fetchPage (f pid)) ∧
    (ids.map fun pid => assemble env.fetchPage (f pid)).length = ids.length ∧
    ∀ i : Nat, (ids.map fun pid => assemble env.fetchPage (f pid))[i]? =
      (ids[i]?).map fun pid => assemble env.fetchPage (f pid) := by
  refine ⟨?_, by simp, ?_⟩
  · simp [collect_companies, hs, collectLoop_ok env f ids hd]
  · intro i
    simp

/-- C2 witness: a concrete two-candidate environment produces exactly the
two assembled records, in order. -/
theorem C2_collect_order_witness :
    collect_companies
      (⟨fun _ => .ok ["a", "b"],
        fun _ => .ok ⟨some "Acme Pools", none, none, none, none, none, none⟩,
        fun _ => .error ()⟩ : Env Unit) "Boston, MA" =
      .ok (["a", "b"].map fun _ =>
        assemble (fun _ => (.error () : Except Unit String))
          ⟨some "Acme Pools", none, none, none, none, none, none⟩) := by
  have h := C2_collect_order (ε := Unit)
    ⟨fun _ => .ok ["a", "b"],
     fun _ => .ok ⟨some "Acme Pools", none, none, none, none, none, none⟩,
     fun _ => .error ()⟩ "Boston, MA" ["a", "b"]
    (fun _ => ⟨some "Acme Pools", none, none, none, none, none, none⟩)
    rfl (fun _ _ => rfl)
  exact h.1

/-- C3: when the details fetch raises for any candidate (say the second of
three), the whole collection raises with that exception, and `find_and_save`
then also raises: the file-system is returned unchanged (no CSV written), no
envelope is produced, and the records assembled for the earlier candidates
are not part of the result in any form. -/
theorem C3_failure_discards {ε : Type} :
    (∀ (env : Env ε) (cs : String) (fs : FS) (e : ε),
        collect_companies env cs = .error e →
        find_and_save env cs fs = (fs, .error e)) ∧
    (∀ (env : Env ε) (cs : String) (a b c : String) (da : PlaceDetails)
        (e : ε),
        env.searchIds cs = .ok [a, b, c] →
        env.details a = .ok da →
        env.details b = .error e →
        collect_companies env cs = .error e) := by
  constructor
  · intro env cs fs e h
    simp [find_and_save, h]
  · intro env cs a b c da e hs ha hb
    simp [collect_companies, collectLoop, hs, ha, hb]

/-- C3 witness: three candidates with the second details fetch raising; the
call returns the exception and the (initially empty) file system is
untouched. -/
theorem C3_failure_discards_witness :
    find_and_save
      (⟨fun _ => .ok ["a", "b", "c"],
        fun pid => if pid = "b" then .error () else
          .ok ⟨some "Acme Pools", none, none, none, none, none, none⟩,
        fun _ => .error ()⟩ : Env Unit) "Boston, MA" (fun _ => none) =
      ((fun _ => none : FS), .error ()) := by
  have h := C3_failure_discards (ε := Unit)
  exact h.1 _ "Boston, MA" (fun _ => none) ()
    (h.2 _ "Boston, MA" "a" "b" "c"
      ⟨some "Acme Pools", none, none, none, none, none, none⟩ ()
      rfl rfl rfl)

/-- C5: on every non-raising path each of the three tools returns an
envelope with `status = "success"` and `count` equal to the number of
records handled (for find, the length of `results`); the two saving tools
report the deterministic path `data/<slug(city_state)>_pool_companies.csv`
derived from the city/state argument. -/
theorem C5_success_envelopes {ε : Type} :
    (∀ (env : Env ε) (cs : String) (rows : List Company),
        collect_companies env cs = .ok rows →
        find_pool_companies env cs = .ok
          { status := "success", count := rows.length, results := some rows,
            path := none, cityState := none }) ∧
    (∀ (rows : List Company) (cs : String) (fs : FS),
        (write_csv rows cs fs).2 =
          { status := "success", count := rows.length, results := none,
            path := some (outPath cs), cityState := none }) ∧
    (∀ (env : Env ε) (cs : String) (fs : FS) (rows : List Company),
        collect_companies env cs = .ok rows →
        (find_and_save env cs fs).2 = .ok
          { status := "success", count := rows.length, results := none,
            path := some (outPath cs), cityState := some cs }) ∧
    (∀ cs : String, outPath cs =
        "data/" ++ safe_filename cs ++ "_pool_companies.csv") := by
  refine ⟨?_, ?_, ?_, fun _ => rfl⟩
  · intro env cs rows h
    simp [find_pool_companies, h]
  · intro rows cs fs
    rfl
  · intro env cs fs rows h
    simp [find_and_save, h]

/-- C5 witness: all three tools at concrete inputs, with the slugged
path evaluated. -/
theorem C5_success_envelopes_witness :
    find_pool_companies
      (⟨fun _ => .ok [], fun _ => .error (), fun _ => .error ()⟩ : Env Unit)
      "Boston, MA" =
      .ok { status := "success", count := 0, results := some [],
            path := none, cityState := none } ∧
    (write_csv [] "Boston, MA" (fun _ => none)).2 =
      { status := "success", count := 0, results := none,
        path := some "data/boston_ma_pool_companies.csv",
        cityState := none } ∧
    (find_and_save
        (⟨fun _ => .ok [], fun _ => .error (), fun _ => .error ()⟩ : Env Unit)
        "Boston, MA" (fun _ => none)).2 =
      .ok { status := "success", count := 0, results := none,
            path := some "data/boston_ma_pool_companies.csv",
            cityState := some "Boston, MA" } := by
  have h := C5_success_envelopes (ε := Unit)
  have hp : outPath "Boston, MA" = "data/boston_ma_pool_companies.csv" := by
    decide
  refine ⟨h.1 ⟨fun _ => .ok [], fun _ => .error (), fun _ => .error ()⟩
    "Boston, MA" [] rfl, ?_, ?_⟩
  · rw [h.2.1 [] "Boston, MA" (fun _ => none), hp]
    rfl
  · rw [h.2.2.1 ⟨fun _ => .ok [], fun _ => .error (), fun _ => .error ()⟩
      "Boston, MA" (fun _ => none) [] rfl, hp]
    rfl

/-- C8: every `Company` record produced by a successful collection carries
an actual string in each of the three `Optional[str]` fields (`phone`,
`email`, `website`) — never `None` — and when the corresponding upstream
values are absent the string stored is the empty string. -/
theorem C8_fields_never_none {ε : Type} :
    (∀ (env : Env ε) (cs : String) (rows : List Company),
        collect_companies env cs = .ok rows →
        ∀ r ∈ rows, (∃ s, r.phone = some s) ∧ (∃ s, r.email = some s) ∧
          ∃ s, r.website = some s) ∧
    (∀ (fp : String → Except ε String) (d : PlaceDetails),
        (d.nationalPhoneNumber = none → d.internationalPhoneNumber = none →
          (assemble fp d).phone = some "") ∧
        (scrapeEmail fp (orS d.websiteUri (orS d.googleMapsUri ""))
            = none → (assemble fp d).email = some "") ∧
        (d.websiteUri = none → d.googleMapsUri = none →
          (assemble fp d).website = some "")) := by
  constructor
  · intro env cs rows h r hr
    cases hs : env.searchIds cs with
    | error e => simp [collect_companies, hs] at h
    | ok ids =>
        simp only [collect_companies, hs] at h
        obtain ⟨d, rfl⟩ := collectLoop_mem env ids rows h r hr
        exact ⟨⟨_, rfl⟩, ⟨_, rfl⟩, ⟨_, rfl⟩⟩
  · intro fp d
    refine ⟨?_, ?_, ?_⟩
    · intro h1 h2
      simp [assemble, orS, h1, h2]
    · intro h
      show some (orS (scrapeEmail fp
        (orS d.websiteUri (orS d.googleMapsUri ""))) "") = some ""
      rw [h]
      rfl
    · intro h1 h2
      simp [assemble, orS, h1, h2]

/-- C8 witness: a single-candidate collection whose details carry no phone,
no website and no maps URI; all three optional fields come back as
`some ""`. -/
theorem C8_fields_never_none_witness :
    (∃ s, (assemble (fun _ => (.error () : Except Unit String))
      ⟨none, none, none, none, none, none, none⟩).phone = some s) ∧
    (assemble (fun _ => (.error () : Except Unit String))
      ⟨none, none, none, none, none, none, none⟩).phone = some "" ∧
    (assemble (fun _ => (.error () : Except Unit String))
      ⟨none, none, none, none, none, none, none⟩).email = some "" ∧
    (assemble (fun _ => (.error () : Except Unit String))
      ⟨none, none, none, none, none, none, none⟩).website = some "" := by
  have h := C8_fields_never_none (ε := Unit)
  have h1 := (h.1 ⟨fun _ => .ok ["a"],
    fun _ => .ok ⟨none, none, none, none, none, none, none⟩,
    fun _ => .error ()⟩ "Boston, MA"
    [assemble (fun _ => (.error () : Except Unit String))
      ⟨none, none, none, none, none, none, none⟩] rfl
    (assemble (fun _ => (.error () : Except Unit String))
      ⟨none, none, none, none, none, none, none⟩)
    (List.mem_singleton.mpr rfl)).1
  have h2 := h.2 (fun _ => (.error () : Except Unit String))
    ⟨none, none, none, none, none, none, none⟩
  exact ⟨h1, h2.1 rfl rfl, h2.2.1 rfl, h2.2.2 rfl rfl⟩

/-- C4: the filename slug (lowercase, each run of non-alphanumeric
characters collapsed to one underscore, leading/trailing underscores
stripped) is idempotent — `slug(slug(x)) = slug(x)` for every string — and
`slug("Boston, MA") = "boston_ma"`. -/
theorem C4_slug_idempotent :
    (∀ s : String, safe_filename (safe_filename s) = safe_filename s) ∧
    safe_filename "Boston, MA" = "boston_ma" := by
  constructor
  · intro s
    show String.mk (safeFilenameL (String.mk (safeFilenameL s.data)).data) =
      String.mk (safeFilenameL s.data)
    exact congrArg String.mk (safeFilenameL_idem s.data)
  · decide

/-- C7 counterexample: an exception CAN propagate out of
`fetch_email_from_site`: `urlparse` runs outside the `try` and raises
`ValueError("Invalid IPv6 URL")` for the URL `http://[` (unmatched bracket
in the netloc), whatever the page fetch would return — refuting the
claim's "no exception ever propagates". -/
theorem C7_counterexample :
    fetch_email_from_site
      (fun _ => (.ok "contact us at info@example.com today" :
        Except Unit String)) "http://[" = .error ⟨"Invalid IPv6 URL"⟩ ∧
    fetch_email_from_site (fun _ => (.error () : Except Unit String))
      "http://[" = .error ⟨"Invalid IPv6 URL"⟩ := by
  constructor <;> rfl

/-- C7 (amended): the email scraper normalizes a missing scheme to https
(and leaves a present scheme alone), returns the first (leftmost,
greedy-matched) substring of the fetched page body matching the
case-insensitive email pattern, and returns no email when there is no
match or when the page fetch raises (fetch exceptions are swallowed).  The
one exception path is the scheme check itself: `urlparse` runs outside the
`try`, so for a URL whose netloc has an unmatched bracket the call raises
`ValueError("Invalid IPv6 URL")` instead of returning.  A body
`contact us at info@example.com today` yields `info@example.com`. -/
theorem C7_email_scraper {ε : Type} :
    (∀ (fetchPage : String → Except ε String) (url body : String),
        url ≠ "" → urlparseRaises url.data = false → hasScheme url = false →
        fetchPage ("https://" ++ url) = .ok body →
        fetch_email_from_site fetchPage url =
          .ok ((searchEmail body.data).map String.mk)) ∧
    (∀ (fetchPage : String → Except ε String) (url body : String),
        url ≠ "" → urlparseRaises url.data = false → hasScheme url = true →
        fetchPage url = .ok body →
        fetch_email_from_site fetchPage url =
          .ok ((searchEmail body.data).map String.mk)) ∧
    (∀ (fetchPage : String → Except ε String) (url : String) (e : ε),
        url ≠ "" → urlparseRaises url.data = false →
        fetchPage (if hasScheme url then url else "https://" ++ url) =
          .error e →
        fetch_email_from_site fetchPage url = .ok none) ∧
    (∀ (fetchPage : String → Except ε String) (url : String),
        url ≠ "" → urlparseRaises url.data = true →
        fetch_email_from_site fetchPage url =
          .error ⟨"Invalid IPv6 URL"⟩) ∧
    (searchEmail "contact us at info@example.com today".data).map String.mk =
      some "info@example.com" := by
  refine ⟨?_, ?_, ?_, ?_, by decide⟩
  · intro fetchPage url body hne hr hs hf
    rw [fetch_email_from_site, if_neg hne, if_neg (by simp [hr])]
    rw [scrapeEmail]
    rw [show (if hasScheme url then url else "https://" ++ url) =
      "https://" ++ url from by rw [hs]; rfl]
    simp [hf]
  · intro fetchPage url body hne hr hs hf
    rw [fetch_email_from_site, if_neg hne, if_neg (by simp [hr])]
    rw [scrapeEmail]
    rw [show (if hasScheme url then url else "https://" ++ url) = url from by
      rw [hs]; rfl]
    simp [hf]
  · intro fetchPage url e hne hr hf
    rw [fetch_email_from_site, if_neg hne, if_neg (by simp [hr])]
    rw [scrapeEmail]
    by_cases hs : hasScheme url
    · rw [show (if hasScheme url then url else "https://" ++ url) = url
        from by rw [hs]; rfl] at hf
      rw [show (if hasScheme url = true then url else "https://" ++ url) = url
        from by rw [hs]; rfl]
      simp [hf]
    · rw [Bool.not_eq_true] at hs
      rw [show (if hasScheme url then url else "https://" ++ url) =
        "https://" ++ url from by rw [hs]; rfl] at hf
      rw [show (if hasScheme url = true then url else "https://" ++ url) =
        "https://" ++ url from by rw [hs]; rfl]
      simp [hf]
  · intro fetchPage url hne hr
    rw [fetch_email_from_site, if_neg hne, if_pos hr]

/-- C7 witness: a scheme-less bracket-free URL whose (mocked) fetch
succeeds with the example body; the same URL with a raising fetch
(swallowed); and a scheme-less bracket-mismatched URL on which the call
itself raises. -/
theorem C7_email_scraper_witness :
    fetch_email_from_site
      (fun _ => (.ok "contact us at info@example.com today" :
        Except Unit String)) "example.com" =
      .ok (some "info@example.com") ∧
    fetch_email_from_site (fun _ => (.error () : Except Unit String))
      "example.com" = .ok none ∧
    fetch_email_from_site (fun _ => (.error () : Except Unit String))
      "//[" = .error ⟨"Invalid IPv6 URL"⟩ := by
  have h := C7_email_scraper (ε := Unit)
  refine ⟨?_, ?_, ?_⟩
  · rw [h.1 (fun _ => .ok "contact us at info@example.com today")
      "example.com" "contact us at info@example.com today"
      (by decide) (by decide) (by decide) rfl]
    rw [h.2.2.2.2]
  · exact h.2.2.1 (fun _ => .error ()) "example.com" () (by decide)
      (by decide) rfl
  · exact h.2.2.2.1 (fun _ => .error ()) "//[" (by decide) (by decide)

end PoolCo
